import Mathlib

/-!
Verification development for the `aoc` grid library (`src/aoc/src/grid.rs`).

The Rust source is shallowly embedded: `usize` coordinates become `Nat`,
`isize` displacement components become `Int`, the `HashMap<Point, T>`
backing store becomes an association list with replace-in-place insertion
(lookup and insertion have exactly the map semantics the Rust code relies
on), and the `BTreeSet<Point>` flood-fill frontier becomes a list kept
sorted by the derived lexicographic order on `(x, y)` with deduplicating
ordered insertion, so that popping the head models `pop_first`.
The flood-fill loop is embedded with explicit fuel counting loop
iterations: a result of `none` means the loop is still running after that
many iterations.  Iterators are embedded as state machines or as
structurally/well-founded recursive list producers mirroring each `next()`
implementation.
-/

/-- Model of `Point` (grid.rs): a point with non-negative x and y components. -/
structure Point where
  x : Nat
  y : Nat
deriving DecidableEq, Repr

/-- Model of `Vector2D` (grid.rs): a 2D vector with signed components. -/
structure Vector2D where
  x : Int
  y : Int
deriving DecidableEq, Repr

/-- Model of `usize::checked_add_signed` on `Nat` coordinates: adds a signed
displacement, `none` when the result would be negative. -/
def checked_add_signed (n : Nat) (i : Int) : Option Nat :=
  if (n : Int) + i < 0 then none else some ((n : Int) + i).toNat

/-- Model of `Point::offset_by`: component-wise checked addition, `none` if
either component would go negative. -/
def Point.offset_by (p : Point) (v : Vector2D) : Option Point :=
  match checked_add_signed p.x v.x, checked_add_signed p.y v.y with
  | some x, some y => some ⟨x, y⟩
  | _, _ => none

/-- Model of `Direction` (grid.rs). -/
inductive Direction where
  | North
  | South
  | East
  | West
deriving DecidableEq, Repr

/-- Model of `Direction::DIRS`. -/
def Direction.DIRS : List Direction :=
  [Direction.North, Direction.South, Direction.East, Direction.West]

/-- Model of `Direction::vector`: the unit vector of a direction. -/
def Direction.vector : Direction → Vector2D
  | Direction.North => ⟨0, -1⟩
  | Direction.South => ⟨0, 1⟩
  | Direction.East => ⟨1, 0⟩
  | Direction.West => ⟨-1, 0⟩

/-- Model of `Point::neighbors`: the cardinally adjacent points, omitting
those that would have a negative component. -/
def Point.neighbors (p : Point) : List Point :=
  Direction.DIRS.filterMap (fun d => p.offset_by d.vector)

/-- Lexicographic comparison on points matching the Rust `derive(Ord)`
field order (x first, then y); used by the `BTreeSet<Point>` frontier. -/
def Point.leb (a b : Point) : Bool :=
  Nat.blt a.x b.x || (a.x == b.x && Nat.ble a.y b.y)

/-- Association-list lookup modelling `HashMap::get`. -/
def mapGet {T : Type} (p : Point) : List (Point × T) → Option T
  | [] => none
  | (q, w) :: rest => if p = q then some w else mapGet p rest

/-- Association-list insertion modelling `HashMap::insert`: replaces the
binding in place when the key is present, otherwise appends it. -/
def mapInsert {T : Type} (p : Point) (v : T) : List (Point × T) → List (Point × T)
  | [] => [(p, v)]
  | (q, w) :: rest =>
    if p = q then (p, v) :: rest else (q, w) :: mapInsert p v rest

/-- Model of `Grid<T>` (grid.rs): a sparse 2-dimensional grid. -/
structure Grid (T : Type) where
  map : List (Point × T)
  width : Nat
  height : Nat
deriving DecidableEq, Repr

/-- Model of `Grid::new`: an empty grid. -/
def Grid.new (T : Type) : Grid T :=
  { map := [], width := 0, height := 0 }

/-- Model of `Grid::check_inbounds`: true when the point lies strictly
inside the tracked width × height rectangle. -/
def Grid.check_inbounds {T : Type} (g : Grid T) (p : Point) : Bool :=
  Nat.blt p.x g.width && Nat.blt p.y g.height

/-- Model of `Grid::get`: map lookup. -/
def Grid.get {T : Type} (g : Grid T) (p : Point) : Option T :=
  mapGet p g.map

/-- Model of `Grid::insert` (the resulting grid; the returned previous
element is `g.get p` and is not needed by any claim): stores the value and
grows `width`/`height` to cover the point. -/
def Grid.insert {T : Type} (g : Grid T) (p : Point) (v : T) : Grid T :=
  { map := mapInsert p v g.map,
    width := max g.width (p.x + 1),
    height := max g.height (p.y + 1) }

/-- Model of one row of the `from_2d_vec` loop: inserts the elements of
`row` at points `(x, y), (x+1, y), …`. -/
def rowInserts {T : Type} (y : Nat) : Nat → List T → List (Point × T) → List (Point × T)
  | _, [], m => m
  | x, v :: rest, m => rowInserts y (x + 1) rest (mapInsert ⟨x, y⟩ v m)

/-- Model of the outer `from_2d_vec` loop over rows `y, y+1, …`. -/
def buildRows {T : Type} : Nat → List (List T) → List (Point × T) → List (Point × T)
  | _, [], m => m
  | y, row :: rest, m => buildRows (y + 1) rest (rowInserts y 0 row m)

/-- Model of the `from_2d_vec` width accumulation: fold of `max` over row
lengths, starting at 0. -/
def widthFold {T : Type} (input : List (List T)) : Nat :=
  input.foldl (fun w row => max w row.length) 0

/-- Model of `Grid::from_2d_vec`. -/
def Grid.from_2d_vec {T : Type} (input : List (List T)) : Grid T :=
  { map := buildRows 0 input [],
    width := widthFold input,
    height := input.length }

/-- Model of one line of the text-conversion loop (`From<S> for Grid<T>`):
characters whose conversion fails are skipped. -/
def charRowInserts {T : Type} (convert : Char → Option T) (y : Nat) :
    Nat → List Char → List (Point × T) → List (Point × T)
  | _, [], m => m
  | x, c :: rest, m =>
    match convert c with
    | some v => charRowInserts convert y (x + 1) rest (mapInsert ⟨x, y⟩ v m)
    | none => charRowInserts convert y (x + 1) rest m

/-- Model of the outer text-conversion loop over lines. -/
def buildLines {T : Type} (convert : Char → Option T) :
    Nat → List (List Char) → List (Point × T) → List (Point × T)
  | _, [], m => m
  | y, line :: rest, m => buildLines convert (y + 1) rest (charRowInserts convert y 0 line m)

/-- Model of `impl From<S> for Grid<T>` where `T : TryFrom<char>`: the
input string is given as its list of lines, each a list of characters, and
`convert` models `char::try_into`. -/
def Grid.from_lines {T : Type} (convert : Char → Option T) (input : List (List Char)) : Grid T :=
  { map := buildLines convert 0 input [],
    width := widthFold input,
    height := input.length }

/-- Ordered deduplicating insertion into the sorted frontier list,
modelling `BTreeSet::insert`. -/
def frInsert (p : Point) : List Point → List Point
  | [] => [p]
  | q :: rest =>
    if p = q then q :: rest
    else if Point.leb p q then p :: q :: rest
    else q :: frInsert p rest

/-- Model of `BTreeSet::extend` over `Point::neighbors`. -/
def frExtend (front : List Point) (ps : List Point) : List Point :=
  ps.foldl (fun f q => frInsert q f) front

/-- Model of the `flood_fill` loop body, with explicit fuel counting loop
iterations.  Popping the head of the sorted frontier models `pop_first`;
`none` means the loop has not finished within `fuel` iterations. -/
def floodFillAux {T : Type} [DecidableEq T] (value : T) (replace : Option T) :
    Nat → Grid T → List Point → Option (Grid T)
  | _, g, [] => some g
  | 0, _, _ :: _ => none
  | fuel + 1, g, p :: rest =>
    if g.check_inbounds p && decide (replace = g.get p) then
      floodFillAux value replace fuel (g.insert p value) (frExtend rest p.neighbors)
    else
      floodFillAux value replace fuel g rest

/-- Model of `Grid::flood_fill`: starts from the singleton frontier
`{start}` and runs the loop for at most `fuel` iterations. -/
def Grid.flood_fill {T : Type} [DecidableEq T] (g : Grid T) (start : Point) (value : T)
    (replace : Option T) (fuel : Nat) : Option (Grid T) :=
  floodFillAux value replace fuel g [start]

theorem offset_by_east (p : Point) :
    p.offset_by Direction.East.vector = some ⟨p.x + 1, p.y⟩ := by
  simp only [Point.offset_by, checked_add_signed, Direction.vector]
  split_ifs <;> first | omega | (simp [Point.mk.injEq] <;> omega)

theorem offset_by_south (p : Point) :
    p.offset_by Direction.South.vector = some ⟨p.x, p.y + 1⟩ := by
  simp only [Point.offset_by, checked_add_signed, Direction.vector]
  split_ifs <;> first | omega | (simp [Point.mk.injEq] <;> omega)

theorem offset_by_north (p : Point) :
    p.offset_by Direction.North.vector =
      if p.y = 0 then none else some ⟨p.x, p.y - 1⟩ := by
  simp only [Point.offset_by, checked_add_signed, Direction.vector]
  split_ifs <;> first | omega | (simp [Point.mk.injEq] <;> omega)

theorem offset_by_west (p : Point) :
    p.offset_by Direction.West.vector =
      if p.x = 0 then none else some ⟨p.x - 1, p.y⟩ := by
  simp only [Point.offset_by, checked_add_signed, Direction.vector]
  split_ifs <;> first | omega | (simp [Point.mk.injEq] <;> omega)

/-- Successor of the full-scan cursor, modelling the `next.x += 1; if next.x
>= width { next.x = 0; next.y += 1 }` advance in `GridIter::next`. -/
def scanNext {T : Type} (g : Grid T) (p : Point) : Point :=
  if p.x + 1 < g.width then ⟨p.x + 1, p.y⟩ else ⟨0, p.y + 1⟩

theorem check_inbounds_iff {T : Type} (g : Grid T) (p : Point) :
    g.check_inbounds p = true ↔ p.x < g.width ∧ p.y < g.height := by
  simp [Grid.check_inbounds, Nat.blt_eq]

/-- Model of `Iterator for GridIter`: the list of values yielded from
cursor position `p` on, skipping unpopulated cells, stopping when the
cursor row leaves the grid. -/
def gridIterFrom {T : Type} (g : Grid T) (p : Point) : List T :=
  if h : p.y < g.height then
    match g.get p with
    | some v => v :: gridIterFrom g (scanNext g p)
    | none => gridIterFrom g (scanNext g p)
  else []
termination_by (g.height - p.y, g.width - p.x)
decreasing_by
  all_goals
    simp only [scanNext]
    split
    · exact Prod.Lex.right _ (by show g.width - (p.x + 1) < g.width - p.x; omega)
    · exact Prod.Lex.left _ _ (by show g.height - (p.y + 1) < g.height - p.y; omega)

/-- Model of `Grid::iter` followed by exhausting the iterator. -/
def Grid.iterList {T : Type} (g : Grid T) : List T :=
  gridIterFrom g ⟨0, 0⟩

/-- Termination measure for the linear-ray iterator: stepping a candidate
that is in bounds strictly shrinks it. -/
def railMeasure {T : Type} (g : Grid T) (dir : Direction) : Option Point → Nat
  | none => 0
  | some p =>
    match dir with
    | Direction.North => p.y + 2
    | Direction.South => g.height - p.y + 1
    | Direction.East => g.width - p.x + 1
    | Direction.West => p.x + 2

theorem railMeasure_lt {T : Type} (g : Grid T) (dir : Direction) (p : Point)
    (hx : p.x < g.width) (hy : p.y < g.height) :
    railMeasure g dir (p.offset_by dir.vector) < railMeasure g dir (some p) := by
  cases dir
  · rw [offset_by_north]
    by_cases h : p.y = 0 <;> simp [h, railMeasure] <;> omega
  · rw [offset_by_south]; simp [railMeasure]; omega
  · rw [offset_by_east]; simp [railMeasure]; omega
  · rw [offset_by_west]
    by_cases h : p.x = 0 <;> simp [h, railMeasure] <;> omega

/-- Model of `Iterator for GridLinearIter`: the list of values yielded from
candidate `next` on, stepping by the direction's unit vector, stopping as
soon as a candidate is out of bounds (or its offset would go negative). -/
def linIterList {T : Type} (g : Grid T) (dir : Direction) : Option Point → List T
  | none => []
  | some p =>
    if h : g.check_inbounds p then
      match g.get p with
      | some v => v :: linIterList g dir (p.offset_by dir.vector)
      | none => linIterList g dir (p.offset_by dir.vector)
    else []
termination_by op => railMeasure g dir op
decreasing_by
  all_goals
    rw [check_inbounds_iff] at h
    exact railMeasure_lt g dir p h.1 h.2

/-- Model of `Grid::linear_iter` followed by exhausting the iterator. -/
def Grid.linear_iter {T : Type} (g : Grid T) (start : Point) (dir : Direction) : List T :=
  linIterList g dir (some start)

/-- Model of `Grid::row_iter` followed by exhausting the iterator. -/
def Grid.row_iter {T : Type} (g : Grid T) (row : Nat) : List T :=
  linIterList g Direction.East (some ⟨0, row⟩)

/-- Model of `Grid::col_iter` followed by exhausting the iterator. -/
def Grid.col_iter {T : Type} (g : Grid T) (col : Nat) : List T :=
  linIterList g Direction.South (some ⟨col, 0⟩)

/-- Candidate vectors of `Grid::neighbors_iter` (`NEIGHBOR_VECS`), in source
order. -/
def neighborVecs : List Vector2D :=
  [⟨0, -1⟩, ⟨-1, 0⟩, ⟨1, 0⟩, ⟨0, 1⟩]

/-- Candidate vectors of `Grid::ortho_iter` (`NEIGHBOR_VECS`), in source
order. -/
def orthoVecs : List Vector2D :=
  [⟨-1, -1⟩, ⟨0, -1⟩, ⟨1, -1⟩, ⟨-1, 0⟩, ⟨1, 0⟩, ⟨-1, 1⟩, ⟨0, 1⟩, ⟨1, 1⟩]

/-- Model of `Iterator for GridNeighbors`: values of the populated candidate
points, in order, skipping unpopulated ones. -/
def neighborsValues {T : Type} (g : Grid T) : List Point → List T
  | [] => []
  | q :: rest =>
    match g.get q with
    | some v => v :: neighborsValues g rest
    | none => neighborsValues g rest

/-- Model of `Grid::neighbors_iter` followed by exhausting the iterator. -/
def Grid.neighbors_iter {T : Type} (g : Grid T) (p : Point) : List T :=
  neighborsValues g (neighborVecs.filterMap (fun v => p.offset_by v))

/-- Model of `Grid::ortho_iter` followed by exhausting the iterator. -/
def Grid.ortho_iter {T : Type} (g : Grid T) (p : Point) : List T :=
  neighborsValues g (orthoVecs.filterMap (fun v => p.offset_by v))

/-- Model of the dynamic `GridIterator` trait object inside
`IndexedGridIter`: one state per concrete traversal strategy
(`GridIter`, `GridLinearIter`, `GridNeighbors`), with the fields each
Rust struct carries (the grid reference is passed separately). -/
inductive IterSt (T : Type) where
  | full (next : Point) (current : Point)
  | linear (next : Option Point) (dir : Direction) (current : Point)
  | nbrs (index : Nat) (neighbors : List Point)
deriving DecidableEq, Repr

/-- Model of `GridIterator::current_index` for each strategy.  For the
neighbor strategy this is `neighbors[index.saturating_sub(1)]`; the default
covers the index-out-of-range case, where the Rust code would panic (that
state is never read through `IndexedGridIter`). -/
def IterSt.current_index {T : Type} : IterSt T → Point
  | IterSt.full _ cur => cur
  | IterSt.linear _ _ cur => cur
  | IterSt.nbrs i l => l.getD (i - 1) ⟨0, 0⟩

/-- Termination measure for one `next()` call of any strategy. -/
def istepMeasure {T : Type} (g : Grid T) : IterSt T → Nat × Nat
  | IterSt.full next _ => (g.height - next.y, g.width - next.x)
  | IterSt.linear op dir _ => (railMeasure g dir op, 0)
  | IterSt.nbrs i l => (l.length - i, 0)

/-- Model of one `next()` call of the wrapped iterator: returns the yielded
value and the successor state, or `none` when the traversal is finished.
Each branch mirrors the corresponding Rust `Iterator::next`, including the
recursive self-call that skips unpopulated cells. -/
def istep {T : Type} (g : Grid T) : IterSt T → Option (T × IterSt T)
  | IterSt.full next _cur =>
    if h : next.y < g.height then
      match g.get next with
      | some v => some (v, IterSt.full (scanNext g next) next)
      | none => istep g (IterSt.full (scanNext g next) next)
    else none
  | IterSt.linear none _ _ => none
  | IterSt.linear (some p) dir _cur =>
    if h : g.check_inbounds p then
      match g.get p with
      | some v => some (v, IterSt.linear (p.offset_by dir.vector) dir p)
      | none => istep g (IterSt.linear (p.offset_by dir.vector) dir p)
    else none
  | IterSt.nbrs i l =>
    if h : i < l.length then
      match g.get (l.get ⟨i, h⟩) with
      | some v => some (v, IterSt.nbrs (i + 1) l)
      | none => istep g (IterSt.nbrs (i + 1) l)
    else none
termination_by st => istepMeasure g st
decreasing_by
  · simp only [istepMeasure, scanNext]
    split
    · exact Prod.Lex.right _ (by show g.width - (next.x + 1) < g.width - next.x; omega)
    · exact Prod.Lex.left _ _ (by show g.height - (next.y + 1) < g.height - next.y; omega)
  · simp only [istepMeasure]
    rw [check_inbounds_iff] at h
    exact Prod.Lex.left _ _ (railMeasure_lt g dir p h.1 h.2)
  · simp only [istepMeasure]
    exact Prod.Lex.left _ _ (by omega)

/-- Model of `Iterator for IndexedGridIter`, run for at most `fuel` calls:
each call advances the wrapped iterator, then reads `current_index` from
the advanced state and pairs it with the yielded value. -/
def indexedList {T : Type} (g : Grid T) : Nat → IterSt T → List (Point × T)
  | 0, _ => []
  | fuel + 1, st =>
    match istep g st with
    | none => []
    | some (v, st') => (st'.current_index, v) :: indexedList g fuel st'

/-- Width formula of the spec's bounds invariant, `1 + max(x over inserted
points, −1)`, written over naturals as the maximum of `x + 1` over the map
(0 for an empty map). -/
def specWidth {T : Type} (m : List (Point × T)) : Nat :=
  m.foldr (fun e a => max (e.1.x + 1) a) 0

/-- Height formula of the spec's bounds invariant, `1 + max(y over inserted
points, −1)`. -/
def specHeight {T : Type} (m : List (Point × T)) : Nat :=
  m.foldr (fun e a => max (e.1.y + 1) a) 0

/-- Bounds invariant claimed by the spec: the tracked width and height
equal the formulas over the inserted points. -/
def boundsInv {T : Type} (g : Grid T) : Prop :=
  g.width = specWidth g.map ∧ g.height = specHeight g.map

/-- Candidate points of a linear ray as the spec words it: starting at
`start`, step by the direction's unit vector and keep every candidate while
it remains inside the tracked rectangle, stopping the instant a step would
leave it (for West/North the ray leaves by hitting a negative coordinate). -/
def specRay {T : Type} (g : Grid T) (start : Point) (dir : Direction) : List Point :=
  if g.check_inbounds start then
    match dir with
    | Direction.East => (List.range (g.width - start.x)).map (fun i => ⟨start.x + i, start.y⟩)
    | Direction.West => (List.range (start.x + 1)).map (fun i => ⟨start.x - i, start.y⟩)
    | Direction.South => (List.range (g.height - start.y)).map (fun i => ⟨start.x, start.y + i⟩)
    | Direction.North => (List.range (start.y + 1)).map (fun i => ⟨start.x, start.y - i⟩)
  else []

/-- A grid is fully populated when occupancy coincides with the tracked
rectangle: a cell holds a value exactly when it is in bounds. -/
def fullyPopulated {T : Type} (g : Grid T) : Prop :=
  ∀ p : Point, (g.get p).isSome = g.check_inbounds p

theorem mapGet_mapInsert {T : Type} (p q : Point) (v : T) (m : List (Point × T)) :
    mapGet q (mapInsert p v m) = if q = p then some v else mapGet q m := by
  induction m with
  | nil => by_cases h : q = p <;> simp [mapInsert, mapGet, h]
  | cons e rest ih =>
    obtain ⟨a, w⟩ := e
    by_cases hpa : p = a
    · subst hpa
      by_cases hqp : q = p <;> simp [mapInsert, mapGet, hqp]
    · by_cases hqa : q = a
      · subst hqa
        have hqp : q ≠ p := fun h => hpa h.symm
        simp [mapInsert, mapGet, hpa, hqp]
      · simp [mapInsert, mapGet, hpa, hqa, ih]

theorem mapInsert_self {T : Type} (p : Point) (v : T) (m : List (Point × T))
    (h : mapGet p m = some v) : mapInsert p v m = m := by
  induction m with
  | nil => simp [mapGet] at h
  | cons e rest ih =>
    obtain ⟨a, w⟩ := e
    by_cases hpa : p = a
    · subst hpa
      simp [mapGet] at h
      simp [mapInsert, h]
    · simp [mapGet, hpa] at h
      simp [mapInsert, hpa, ih h]

theorem get_insert {T : Type} (g : Grid T) (p q : Point) (v : T) :
    (g.insert p v).get q = if q = p then some v else g.get q :=
  mapGet_mapInsert p q v g.map

theorem insert_noop {T : Type} (g : Grid T) (p : Point) (v : T)
    (hget : g.get p = some v) (hx : p.x < g.width) (hy : p.y < g.height) :
    g.insert p v = g := by
  obtain ⟨m, w, h⟩ := g
  simp only [Grid.insert, Grid.mk.injEq]
  refine ⟨mapInsert_self p v m hget, by simp at hx ⊢; omega, by simp at hy ⊢; omega⟩

theorem floodFillAux_nil {T : Type} [DecidableEq T] (v : T) (r : Option T) (fuel : Nat)
    (g : Grid T) : floodFillAux v r fuel g [] = some g := by
  cases fuel <;> rfl

theorem floodFillAux_cons_pos {T : Type} [DecidableEq T] (v : T) (r : Option T) (fuel : Nat)
    (g : Grid T) (p : Point) (rest : List Point)
    (h1 : g.check_inbounds p = true) (h2 : r = g.get p) :
    floodFillAux v r (fuel + 1) g (p :: rest) =
      floodFillAux v r fuel (g.insert p v) (frExtend rest p.neighbors) := by
  simp [floodFillAux, h1, h2]

theorem floodFillAux_cons_neg {T : Type} [DecidableEq T] (v : T) (r : Option T) (fuel : Nat)
    (g : Grid T) (p : Point) (rest : List Point)
    (h : ¬(g.check_inbounds p = true ∧ r = g.get p)) :
    floodFillAux v r (fuel + 1) g (p :: rest) = floodFillAux v r fuel g rest := by
  have hc : (g.check_inbounds p && decide (r = g.get p)) = false := by
    by_cases hb : g.check_inbounds p = true
    · simp [hb]
      exact fun hr => h ⟨hb, hr⟩
    · simp [Bool.not_eq_true] at hb
      simp [hb]
  simp [floodFillAux, hc]

theorem floodFillAux_bounds {T : Type} [DecidableEq T] (v : T) (r : Option T) :
    ∀ (fuel : Nat) (g : Grid T) (F : List Point) (g' : Grid T),
      floodFillAux v r fuel g F = some g' → g'.width = g.width ∧ g'.height = g.height := by
  intro fuel
  induction fuel with
  | zero =>
    intro g F g' h
    cases F with
    | nil => simp [floodFillAux_nil] at h; simp [h]
    | cons p rest => simp [floodFillAux] at h
  | succ fuel ih =>
    intro g F g' h
    cases F with
    | nil => simp [floodFillAux_nil] at h; simp [h]
    | cons p rest =>
      by_cases hc : g.check_inbounds p = true ∧ r = g.get p
      · rw [floodFillAux_cons_pos v r fuel g p rest hc.1 hc.2] at h
        have hb := ih (g.insert p v) (frExtend rest p.neighbors) g' h
        rw [check_inbounds_iff] at hc
        simp [Grid.insert] at hb
        obtain ⟨⟨hx, hy⟩, _⟩ := hc
        omega
      · rw [floodFillAux_cons_neg v r fuel g p rest hc] at h
        exact ih g rest g' h

theorem floodFillAux_mono {T : Type} [DecidableEq T] (v : T) (r : Option T) :
    ∀ (fuel : Nat) (g : Grid T) (F : List Point) (g' : Grid T) (q : Point),
      floodFillAux v r fuel g F = some g' → g.get q = some v → g'.get q = some v := by
  intro fuel
  induction fuel with
  | zero =>
    intro g F g' q h hq
    cases F with
    | nil => simp [floodFillAux_nil] at h; rw [← h]; exact hq
    | cons p rest => simp [floodFillAux] at h
  | succ fuel ih =>
    intro g F g' q h hq
    cases F with
    | nil => simp [floodFillAux_nil] at h; rw [← h]; exact hq
    | cons p rest =>
      by_cases hc : g.check_inbounds p = true ∧ r = g.get p
      · rw [floodFillAux_cons_pos v r fuel g p rest hc.1 hc.2] at h
        refine ih (g.insert p v) (frExtend rest p.neighbors) g' q h ?_
        rw [get_insert]
        by_cases hqp : q = p <;> simp [hqp, hq]
      · rw [floodFillAux_cons_neg v r fuel g p rest hc] at h
        exact ih g rest g' q h hq

theorem floodFillAux_same {T : Type} [DecidableEq T] (v : T) :
    ∀ (fuel : Nat) (g : Grid T) (F : List Point) (g' : Grid T),
      floodFillAux v (some v) fuel g F = some g' → g' = g := by
  intro fuel
  induction fuel with
  | zero =>
    intro g F g' h
    cases F with
    | nil => simp [floodFillAux_nil] at h; exact h.symm
    | cons p rest => simp [floodFillAux] at h
  | succ fuel ih =>
    intro g F g' h
    cases F with
    | nil => simp [floodFillAux_nil] at h; exact h.symm
    | cons p rest =>
      by_cases hc : g.check_inbounds p = true ∧ some v = g.get p
      · rw [floodFillAux_cons_pos v (some v) fuel g p rest hc.1 hc.2] at h
        rw [check_inbounds_iff] at hc
        rw [insert_noop g p v hc.2.symm hc.1.1 hc.1.2] at h
        exact ih g (frExtend rest p.neighbors) g' h
      · rw [floodFillAux_cons_neg v (some v) fuel g p rest hc] at h
        exact ih g rest g' h

/-- A 2 × 2 grid whose four cells all hold the value 1. -/
def badGrid : Grid Nat :=
  ⟨[(⟨0, 0⟩, 1), (⟨1, 0⟩, 1), (⟨0, 1⟩, 1), (⟨1, 1⟩, 1)], 2, 2⟩

theorem badGrid_loop :
    ∀ n : Nat, floodFillAux 1 (some 1) n badGrid [⟨0, 0⟩, ⟨0, 2⟩, ⟨1, 0⟩, ⟨1, 1⟩] = none
  | 0 => rfl
  | 1 => by decide
  | (n + 2) => by
    rw [floodFillAux_cons_pos 1 (some 1) (n + 1) badGrid ⟨0, 0⟩ [⟨0, 2⟩, ⟨1, 0⟩, ⟨1, 1⟩]
        (by decide) (by decide),
      show badGrid.insert ⟨0, 0⟩ 1 = badGrid from by decide,
      show frExtend [⟨0, 2⟩, ⟨1, 0⟩, ⟨1, 1⟩] (Point.neighbors ⟨0, 0⟩) =
        [⟨0, 1⟩, ⟨0, 2⟩, ⟨1, 0⟩, ⟨1, 1⟩] from by decide,
      floodFillAux_cons_pos 1 (some 1) n badGrid ⟨0, 1⟩ [⟨0, 2⟩, ⟨1, 0⟩, ⟨1, 1⟩]
        (by decide) (by decide),
      show badGrid.insert ⟨0, 1⟩ 1 = badGrid from by decide,
      show frExtend [⟨0, 2⟩, ⟨1, 0⟩, ⟨1, 1⟩] (Point.neighbors ⟨0, 1⟩) =
        [⟨0, 0⟩, ⟨0, 2⟩, ⟨1, 0⟩, ⟨1, 1⟩] from by decide]
    exact badGrid_loop n

/-- C1: the claim that `flood_fill` always terminates fails on the code.
On the 2 × 2 grid whose cells all hold 1, the call
`flood_fill((0,0), 1, Some(&1))` never finishes: after two iterations the
frontier enters a 2-cycle of nonempty states while the grid never changes,
so for every number of loop iterations the loop is still running. -/
theorem flood_fill_nonterminating :
    ∀ fuel : Nat, badGrid.flood_fill ⟨0, 0⟩ 1 (some 1) fuel = none := by
  intro fuel
  match fuel with
  | 0 => rfl
  | 1 => decide
  | (n + 2) =>
    unfold Grid.flood_fill
    rw [floodFillAux_cons_pos 1 (some 1) (n + 1) badGrid ⟨0, 0⟩ [] (by decide) (by decide),
      show badGrid.insert ⟨0, 0⟩ 1 = badGrid from by decide,
      show frExtend [] (Point.neighbors ⟨0, 0⟩) = [⟨0, 1⟩, ⟨1, 0⟩] from by decide,
      floodFillAux_cons_pos 1 (some 1) n badGrid ⟨0, 1⟩ [⟨1, 0⟩] (by decide) (by decide),
      show badGrid.insert ⟨0, 1⟩ 1 = badGrid from by decide,
      show frExtend [⟨1, 0⟩] (Point.neighbors ⟨0, 1⟩) =
        [⟨0, 0⟩, ⟨0, 2⟩, ⟨1, 0⟩, ⟨1, 1⟩] from by decide]
    exact badGrid_loop n

/-- C2: flood fill is idempotent.  Whenever a `flood_fill` call finishes
within `fuel` loop iterations and produces `g'`, running the same call on
`g'` with the same arguments finishes within the same fuel and returns
`g'` unchanged. -/
theorem flood_fill_idempotent {T : Type} [DecidableEq T] (g : Grid T) (s : Point) (v : T)
    (r : Option T) (fuel : Nat) (g' : Grid T)
    (h : g.flood_fill s v r fuel = some g') :
    g'.flood_fill s v r fuel = some g' := by
  cases fuel with
  | zero => simp [Grid.flood_fill, floodFillAux] at h
  | succ k =>
    by_cases hr : r = some v
    · subst hr
      have hg : g' = g := floodFillAux_same v (k + 1) g [s] g' h
      rw [hg]
      exact hg ▸ h
    · unfold Grid.flood_fill at h ⊢
      by_cases hc : g.check_inbounds s = true ∧ r = g.get s
      · rw [floodFillAux_cons_pos v r k g s [] hc.1 hc.2] at h
        have hs : g'.get s = some v := by
          refine floodFillAux_mono v r k (g.insert s v) (frExtend [] s.neighbors) g' s h ?_
          rw [get_insert]
          simp
        have hneg : ¬(g'.check_inbounds s = true ∧ r = g'.get s) := by
          rintro ⟨_, hrr⟩
          rw [hs] at hrr
          exact hr hrr
        rw [floodFillAux_cons_neg v r k g' s [] hneg, floodFillAux_nil]
      · rw [floodFillAux_cons_neg v r k g s [] hc, floodFillAux_nil] at h
        obtain rfl : g = g' := by injection h
        rw [floodFillAux_cons_neg v r k g s [] hc, floodFillAux_nil]

theorem flood_fill_idempotent_witness :
    ((Grid.mk [(⟨0, 0⟩, 1)] 1 1 : Grid Nat).flood_fill ⟨0, 0⟩ 1 (some 0) 3 =
      some (Grid.mk [(⟨0, 0⟩, 1)] 1 1)) :=
  flood_fill_idempotent (Grid.mk [(⟨0, 0⟩, 0)] 1 1) ⟨0, 0⟩ 1 (some 0) 3
    (Grid.mk [(⟨0, 0⟩, 1)] 1 1) (by decide)

/-- C4: `offset_by` yields `none` exactly when a component of the sum is
negative, and otherwise the component-wise sum. -/
theorem offset_by_correct (p : Point) (v : Vector2D) :
    p.offset_by v =
      if (p.x : Int) + v.x < 0 ∨ (p.y : Int) + v.y < 0 then none
      else some ⟨((p.x : Int) + v.x).toNat, ((p.y : Int) + v.y).toNat⟩ := by
  simp only [Point.offset_by, checked_add_signed]
  split_ifs <;> first | rfl | tauto | (simp [Point.mk.injEq] <;> omega)

/-- C8: `insert` is idempotent on bounds: inserting at an in-bounds point
leaves `width` and `height` unchanged, and inserting at `x ≥ width` sets
`width = x + 1` (symmetrically for height). -/
theorem insert_bounds {T : Type} (g : Grid T) (p : Point) (v : T) :
    (p.x < g.width → p.y < g.height →
      (g.insert p v).width = g.width ∧ (g.insert p v).height = g.height) ∧
    (g.width ≤ p.x → (g.insert p v).width = p.x + 1) ∧
    (g.height ≤ p.y → (g.insert p v).height = p.y + 1) := by
  simp only [Grid.insert]
  refine ⟨fun hx hy => ⟨by omega, by omega⟩, fun hx => by omega, fun hy => by omega⟩

theorem insert_bounds_witness :
    ((Grid.mk [(⟨0, 0⟩, 5)] 1 1 : Grid Nat).insert ⟨0, 0⟩ 7).width = 1 ∧
    ((Grid.mk [(⟨0, 0⟩, 5)] 1 1 : Grid Nat).insert ⟨2, 3⟩ 7).height = 4 :=
  ⟨((insert_bounds (Grid.mk [(⟨0, 0⟩, 5)] 1 1) ⟨0, 0⟩ 7).1 (by decide) (by decide)).1,
    (insert_bounds (Grid.mk [(⟨0, 0⟩, 5)] 1 1) ⟨2, 3⟩ 7).2.2 (by decide)⟩

/-- C10: a `flood_fill` call whose start point is out of bounds or whose
start cell's occupancy state differs from `replace` finishes after its one
loop iteration with the grid fully unchanged. -/
theorem flood_fill_noop_on_decline {T : Type} [DecidableEq T] (g : Grid T) (s : Point)
    (v : T) (r : Option T) (fuel : Nat)
    (h : ¬(g.check_inbounds s = true ∧ r = g.get s)) :
    g.flood_fill s v r (fuel + 1) = some g := by
  unfold Grid.flood_fill
  rw [floodFillAux_cons_neg v r fuel g s [] h, floodFillAux_nil]

theorem flood_fill_noop_on_decline_witness :
    (Grid.mk [(⟨0, 0⟩, 5)] 1 1 : Grid Nat).flood_fill ⟨3, 3⟩ 1 none 1 =
      some (Grid.mk [(⟨0, 0⟩, 5)] 1 1) :=
  flood_fill_noop_on_decline (Grid.mk [(⟨0, 0⟩, 5)] 1 1) ⟨3, 3⟩ 1 none 0 (by decide)

theorem specWidth_mapInsert {T : Type} (p : Point) (v : T) (m : List (Point × T)) :
    specWidth (mapInsert p v m) = max (p.x + 1) (specWidth m) := by
  induction m with
  | nil => simp [mapInsert, specWidth]
  | cons e rest ih =>
    obtain ⟨a, w⟩ := e
    by_cases hpa : p = a
    · subst hpa
      simp [mapInsert, specWidth] <;> omega
    · simp [mapInsert, hpa, specWidth] at ih ⊢
      omega

theorem specHeight_mapInsert {T : Type} (p : Point) (v : T) (m : List (Point × T)) :
    specHeight (mapInsert p v m) = max (p.y + 1) (specHeight m) := by
  induction m with
  | nil => simp [mapInsert, specHeight]
  | cons e rest ih =>
    obtain ⟨a, w⟩ := e
    by_cases hpa : p = a
    · subst hpa
      simp [mapInsert, specHeight] <;> omega
    · simp [mapInsert, hpa, specHeight] at ih ⊢
      omega

theorem boundsInv_new (T : Type) : boundsInv (Grid.new T) := by
  simp [boundsInv, Grid.new, specWidth, specHeight]

theorem boundsInv_insert {T : Type} (g : Grid T) (p : Point) (v : T)
    (h : boundsInv g) : boundsInv (g.insert p v) := by
  obtain ⟨m, w, ht⟩ := g
  obtain ⟨h1, h2⟩ := h
  simp [boundsInv, Grid.insert, specWidth_mapInsert, specHeight_mapInsert] at h1 h2 ⊢
  omega

theorem boundsInv_floodFillAux {T : Type} [DecidableEq T] (v : T) (r : Option T) :
    ∀ (fuel : Nat) (g : Grid T) (F : List Point) (g' : Grid T),
      boundsInv g → floodFillAux v r fuel g F = some g' → boundsInv g' := by
  intro fuel
  induction fuel with
  | zero =>
    intro g F g' hg h
    cases F with
    | nil => rw [floodFillAux_nil] at h; injection h with h; rw [← h]; exact hg
    | cons p rest => simp [floodFillAux] at h
  | succ fuel ih =>
    intro g F g' hg h
    cases F with
    | nil => rw [floodFillAux_nil] at h; injection h with h; rw [← h]; exact hg
    | cons p rest =>
      by_cases hc : g.check_inbounds p = true ∧ r = g.get p
      · rw [floodFillAux_cons_pos v r fuel g p rest hc.1 hc.2] at h
        exact ih (g.insert p v) (frExtend rest p.neighbors) g' (boundsInv_insert g p v hg) h
      · rw [floodFillAux_cons_neg v r fuel g p rest hc] at h
        exact ih g rest g' hg h

theorem widthFold_acc {T : Type} (l : List (List T)) :
    ∀ a : Nat, l.foldl (fun w row => max w row.length) a = max a (widthFold l) := by
  induction l with
  | nil => intro a; simp [widthFold]
  | cons row rest ih =>
    intro a
    simp only [widthFold, List.foldl] at ih ⊢
    rw [ih (max a row.length), ih (max 0 row.length)]
    omega

theorem widthFold_cons {T : Type} (row : List T) (rest : List (List T)) :
    widthFold (row :: rest) = max row.length (widthFold rest) := by
  simp only [widthFold, List.foldl]
  rw [widthFold_acc rest (max 0 row.length)]
  simp [widthFold]

theorem specWidth_rowInserts_le {T : Type} (y : Nat) :
    ∀ (x : Nat) (row : List T) (m : List (Point × T)),
      specWidth (rowInserts y x row m) ≤ max (x + row.length) (specWidth m) := by
  intro x row
  induction row generalizing x with
  | nil => intro m; simp [rowInserts]
  | cons v rest ih =>
    intro m
    simp only [rowInserts]
    calc specWidth (rowInserts y (x + 1) rest (mapInsert ⟨x, y⟩ v m))
        ≤ max (x + 1 + rest.length) (specWidth (mapInsert ⟨x, y⟩ v m)) := ih (x + 1) _
      _ = max (x + 1 + rest.length) (max (x + 1) (specWidth m)) := by
          rw [specWidth_mapInsert]
      _ ≤ max (x + (rest.length + 1)) (specWidth m) := by omega

theorem specHeight_rowInserts_le {T : Type} (y : Nat) :
    ∀ (x : Nat) (row : List T) (m : List (Point × T)),
      specHeight (rowInserts y x row m) ≤ max (y + 1) (specHeight m) := by
  intro x row
  induction row generalizing x with
  | nil => intro m; simp [rowInserts]
  | cons v rest ih =>
    intro m
    simp only [rowInserts]
    calc specHeight (rowInserts y (x + 1) rest (mapInsert ⟨x, y⟩ v m))
        ≤ max (y + 1) (specHeight (mapInsert ⟨x, y⟩ v m)) := ih (x + 1) _
      _ = max (y + 1) (max (y + 1) (specHeight m)) := by rw [specHeight_mapInsert]
      _ ≤ max (y + 1) (specHeight m) := by omega

theorem specWidth_buildRows_le {T : Type} :
    ∀ (rows : List (List T)) (y : Nat) (m : List (Point × T)),
      specWidth (buildRows y rows m) ≤ max (widthFold rows) (specWidth m) := by
  intro rows
  induction rows with
  | nil => intro y m; simp [buildRows, widthFold]
  | cons row rest ih =>
    intro y m
    simp only [buildRows]
    calc specWidth (buildRows (y + 1) rest (rowInserts y 0 row m))
        ≤ max (widthFold rest) (specWidth (rowInserts y 0 row m)) := ih (y + 1) _
      _ ≤ max (widthFold rest) (max (0 + row.length) (specWidth m)) := by
          have := specWidth_rowInserts_le y 0 row m
          omega
      _ ≤ max (widthFold (row :: rest)) (specWidth m) := by
          rw [widthFold_cons]
          omega

theorem specHeight_buildRows_le {T : Type} :
    ∀ (rows : List (List T)) (y : Nat) (m : List (Point × T)),
      specHeight (buildRows y rows m) ≤ max (y + rows.length) (specHeight m) := by
  intro rows
  induction rows with
  | nil => intro y m; simp [buildRows]
  | cons row rest ih =>
    intro y m
    simp only [buildRows]
    calc specHeight (buildRows (y + 1) rest (rowInserts y 0 row m))
        ≤ max (y + 1 + rest.length) (specHeight (rowInserts y 0 row m)) := ih (y + 1) _
      _ ≤ max (y + 1 + rest.length) (max (y + 1) (specHeight m)) := by
          have := specHeight_rowInserts_le y 0 row m
          omega
      _ ≤ max (y + (rest.length + 1)) (specHeight m) := by omega

theorem specWidth_charRowInserts_le {T : Type} (convert : Char → Option T) (y : Nat) :
    ∀ (x : Nat) (line : List Char) (m : List (Point × T)),
      specWidth (charRowInserts convert y x line m) ≤ max (x + line.length) (specWidth m) := by
  intro x line
  induction line generalizing x with
  | nil => intro m; simp [charRowInserts]
  | cons c rest ih =>
    intro m
    simp only [charRowInserts]
    cases convert c with
    | some v =>
      calc specWidth (charRowInserts convert y (x + 1) rest (mapInsert ⟨x, y⟩ v m))
          ≤ max (x + 1 + rest.length) (specWidth (mapInsert ⟨x, y⟩ v m)) := ih (x + 1) _
        _ = max (x + 1 + rest.length) (max (x + 1) (specWidth m)) := by
            rw [specWidth_mapInsert]
        _ ≤ max (x + (rest.length + 1)) (specWidth m) := by omega
    | none =>
      calc specWidth (charRowInserts convert y (x + 1) rest m)
          ≤ max (x + 1 + rest.length) (specWidth m) := ih (x + 1) m
        _ ≤ max (x + (rest.length + 1)) (specWidth m) := by omega

theorem specHeight_charRowInserts_le {T : Type} (convert : Char → Option T) (y : Nat) :
    ∀ (x : Nat) (line : List Char) (m : List (Point × T)),
      specHeight (charRowInserts convert y x line m) ≤ max (y + 1) (specHeight m) := by
  intro x line
  induction line generalizing x with
  | nil => intro m; simp [charRowInserts]
  | cons c rest ih =>
    intro m
    simp only [charRowInserts]
    cases convert c with
    | some v =>
      calc specHeight (charRowInserts convert y (x + 1) rest (mapInsert ⟨x, y⟩ v m))
          ≤ max (y + 1) (specHeight (mapInsert ⟨x, y⟩ v m)) := ih (x + 1) _
        _ = max (y + 1) (max (y + 1) (specHeight m)) := by rw [specHeight_mapInsert]
        _ ≤ max (y + 1) (specHeight m) := by omega
    | none => exact ih (x + 1) m

theorem specWidth_buildLines_le {T : Type} (convert : Char → Option T) :
    ∀ (lines : List (List Char)) (y : Nat) (m : List (Point × T)),
      specWidth (buildLines convert y lines m) ≤ max (widthFold lines) (specWidth m) := by
  intro lines
  induction lines with
  | nil => intro y m; simp [buildLines, widthFold]
  | cons line rest ih =>
    intro y m
    simp only [buildLines]
    calc specWidth (buildLines convert (y + 1) rest (charRowInserts convert y 0 line m))
        ≤ max (widthFold rest) (specWidth (charRowInserts convert y 0 line m)) := ih (y + 1) _
      _ ≤ max (widthFold rest) (max (0 + line.length) (specWidth m)) := by
          have := specWidth_charRowInserts_le convert y 0 line m
          omega
      _ ≤ max (widthFold (line :: rest)) (specWidth m) := by
          rw [widthFold_cons]
          omega

theorem specHeight_buildLines_le {T : Type} (convert : Char → Option T) :
    ∀ (lines : List (List Char)) (y : Nat) (m : List (Point × T)),
      specHeight (buildLines convert y lines m) ≤ max (y + lines.length) (specHeight m) := by
  intro lines
  induction lines with
  | nil => intro y m; simp [buildLines]
  | cons line rest ih =>
    intro y m
    simp only [buildLines]
    calc specHeight (buildLines convert (y + 1) rest (charRowInserts convert y 0 line m))
        ≤ max (y + 1 + rest.length) (specHeight (charRowInserts convert y 0 line m)) := ih (y + 1) _
      _ ≤ max (y + 1 + rest.length) (max (y + 1) (specHeight m)) := by
          have := specHeight_charRowInserts_le convert y 0 line m
          omega
      _ ≤ max (y + (rest.length + 1)) (specHeight m) := by omega

/-- C3 counterexample: `from_2d_vec` on the input `[[]]` (one empty row)
produces a grid with no inserted points but `height = 1`, violating
`height = 1 + max(y over inserted points, −1)`. -/
theorem bounds_invariant_counterexample :
    ¬ boundsInv (Grid.from_2d_vec ([[]] : List (List Nat))) := by
  intro h
  exact absurd h.2 (by decide)

/-- C3 (amended): the bounds invariant `width = 1 + max(x, −1)`,
`height = 1 + max(y, −1)` (both 0 when empty) holds for the empty grid and
is preserved by `insert` and by every terminating `flood_fill`; grids built
by `from_2d_vec` or text conversion satisfy only the inequalities
`specWidth ≤ width` and `specHeight ≤ height` (an input containing an empty
row makes `height` strictly larger than the invariant's formula). -/
theorem bounds_invariant :
    (∀ T : Type, boundsInv (Grid.new T)) ∧
    (∀ (T : Type) (g : Grid T) (p : Point) (v : T), boundsInv g → boundsInv (g.insert p v)) ∧
    (∀ (T : Type) [DecidableEq T] (g : Grid T) (s : Point) (v : T) (r : Option T)
      (fuel : Nat) (g' : Grid T),
      boundsInv g → g.flood_fill s v r fuel = some g' → boundsInv g') ∧
    (∀ (T : Type) (input : List (List T)),
      specWidth (Grid.from_2d_vec input).map ≤ (Grid.from_2d_vec input).width ∧
      specHeight (Grid.from_2d_vec input).map ≤ (Grid.from_2d_vec input).height) ∧
    (∀ (T : Type) (convert : Char → Option T) (input : List (List Char)),
      specWidth (Grid.from_lines convert input).map ≤ (Grid.from_lines convert input).width ∧
      specHeight (Grid.from_lines convert input).map ≤ (Grid.from_lines convert input).height) := by
  refine ⟨boundsInv_new, fun T g p v h => boundsInv_insert g p v h, ?_, ?_, ?_⟩
  · intro T _ g s v r fuel g' hg h
    exact boundsInv_floodFillAux v r fuel g [s] g' hg h
  · intro T input
    constructor
    · have := specWidth_buildRows_le input 0 []
      simp [Grid.from_2d_vec, specWidth] at this ⊢
      omega
    · have := specHeight_buildRows_le input 0 []
      simp [Grid.from_2d_vec, specHeight] at this ⊢
      omega
  · intro T convert input
    constructor
    · have := specWidth_buildLines_le convert input 0 []
      simp [Grid.from_lines, specWidth] at this ⊢
      omega
    · have := specHeight_buildLines_le convert input 0 []
      simp [Grid.from_lines, specHeight] at this ⊢
      omega

theorem bounds_invariant_witness :
    boundsInv ((Grid.new Nat).insert ⟨2, 3⟩ 7) :=
  bounds_invariant.2.1 Nat (Grid.new Nat) ⟨2, 3⟩ 7
    (by simp [boundsInv, Grid.new, specWidth, specHeight])

theorem linIterList_none {T : Type} (g : Grid T) (dir : Direction) :
    linIterList g dir none = [] := by
  simp [linIterList]

theorem linIterList_some {T : Type} (g : Grid T) (dir : Direction) (p : Point) :
    linIterList g dir (some p) =
      if g.check_inbounds p then
        match g.get p with
        | some v => v :: linIterList g dir (p.offset_by dir.vector)
        | none => linIterList g dir (p.offset_by dir.vector)
      else [] := by
  rw [linIterList]
  by_cases hin : g.check_inbounds p <;> simp [hin]

theorem linIter_east {T : Type} (g : Grid T) (y : Nat) :
    ∀ (k x : Nat), g.width - x = k → x < g.width → y < g.height →
      linIterList g Direction.East (some ⟨x, y⟩) =
        ((List.range k).map (fun i => (⟨x + i, y⟩ : Point))).filterMap (fun q => g.get q) := by
  intro k
  induction k with
  | zero => intro x hk hx hy; omega
  | succ k ih =>
    intro x hk hx hy
    have hin : g.check_inbounds ⟨x, y⟩ = true := by
      rw [check_inbounds_iff]
      exact ⟨hx, hy⟩
    rw [linIterList_some, if_pos hin, offset_by_east]
    have hrange : (List.range (k + 1)).map (fun i => (⟨x + i, y⟩ : Point)) =
        (⟨x, y⟩ : Point) :: (List.range k).map (fun i => (⟨x + 1 + i, y⟩ : Point)) := by
      rw [List.range_succ_eq_map, List.map_cons, List.map_map]
      congr 1
      apply List.map_congr_left
      intro i _
      simp [Function.comp, Point.mk.injEq] <;> omega
    rw [hrange]
    by_cases hx1 : x + 1 < g.width
    · have hrec := ih (x + 1) (by omega) hx1 hy
      simp only [hrec]
      cases hv : g.get ⟨x, y⟩ <;> simp [hv, List.filterMap_cons]
    · have hk0 : k = 0 := by omega
      subst hk0
      have hout : g.check_inbounds ⟨x + 1, y⟩ = false := by
        by_cases hb : g.check_inbounds ⟨x + 1, y⟩ = true
        · rw [check_inbounds_iff] at hb
          simp only [] at hb
          omega
        · simpa using hb
      have hrec : linIterList g Direction.East (some ⟨x + 1, y⟩) = [] := by
        rw [linIterList_some]
        simp [hout]
      simp only [hrec]
      cases hv : g.get ⟨x, y⟩ <;> simp [hv, List.filterMap_cons]

theorem linIter_south {T : Type} (g : Grid T) (x : Nat) :
    ∀ (k y : Nat), g.height - y = k → x < g.width → y < g.height →
      linIterList g Direction.South (some ⟨x, y⟩) =
        ((List.range k).map (fun i => (⟨x, y + i⟩ : Point))).filterMap (fun q => g.get q) := by
  intro k
  induction k with
  | zero => intro y hk hx hy; omega
  | succ k ih =>
    intro y hk hx hy
    have hin : g.check_inbounds ⟨x, y⟩ = true := by
      rw [check_inbounds_iff]
      exact ⟨hx, hy⟩
    rw [linIterList_some, if_pos hin, offset_by_south]
    have hrange : (List.range (k + 1)).map (fun i => (⟨x, y + i⟩ : Point)) =
        (⟨x, y⟩ : Point) :: (List.range k).map (fun i => (⟨x, y + 1 + i⟩ : Point)) := by
      rw [List.range_succ_eq_map, List.map_cons, List.map_map]
      congr 1
      apply List.map_congr_left
      intro i _
      simp [Function.comp, Point.mk.injEq] <;> omega
    rw [hrange]
    by_cases hy1 : y + 1 < g.height
    · have hrec := ih (y + 1) (by omega) hx hy1
      simp only [hrec]
      cases hv : g.get ⟨x, y⟩ <;> simp [hv, List.filterMap_cons]
    · have hk0 : k = 0 := by omega
      subst hk0
      have hout : g.check_inbounds ⟨x, y + 1⟩ = false := by
        by_cases hb : g.check_inbounds ⟨x, y + 1⟩ = true
        · rw [check_inbounds_iff] at hb
          simp only [] at hb
          omega
        · simpa using hb
      have hrec : linIterList g Direction.South (some ⟨x, y + 1⟩) = [] := by
        rw [linIterList_some]
        simp [hout]
      simp only [hrec]
      cases hv : g.get ⟨x, y⟩ <;> simp [hv, List.filterMap_cons]

theorem linIter_west {T : Type} (g : Grid T) (y : Nat) :
    ∀ x : Nat, x < g.width → y < g.height →
      linIterList g Direction.West (some ⟨x, y⟩) =
        ((List.range (x + 1)).map (fun i => (⟨x - i, y⟩ : Point))).filterMap (fun q => g.get q) := by
  intro x
  induction x with
  | zero =>
    intro hx hy
    have hin : g.check_inbounds ⟨0, y⟩ = true := by
      rw [check_inbounds_iff]
      exact ⟨hx, hy⟩
    rw [linIterList_some, if_pos hin, offset_by_west]
    simp only [if_pos rfl, linIterList_none]
    cases hv : g.get ⟨0, y⟩ <;> simp [hv, List.filterMap_cons, linIterList_none]
  | succ x ih =>
    intro hx hy
    have hin : g.check_inbounds ⟨x + 1, y⟩ = true := by
      rw [check_inbounds_iff]
      exact ⟨hx, hy⟩
    rw [linIterList_some, if_pos hin, offset_by_west]
    have hne : x + 1 ≠ 0 := by omega
    rw [if_neg (by simpa using hne)]
    have hrange : (List.range (x + 1 + 1)).map (fun i => (⟨x + 1 - i, y⟩ : Point)) =
        (⟨x + 1, y⟩ : Point) :: (List.range (x + 1)).map (fun i => (⟨x - i, y⟩ : Point)) := by
      rw [List.range_succ_eq_map, List.map_cons, List.map_map]
      congr 1
      apply List.map_congr_left
      intro i _
      simp [Function.comp, Point.mk.injEq] <;> omega
    rw [hrange]
    have hrec := ih (by omega) hy
    have hsub : (⟨x + 1 - 1, y⟩ : Point) = ⟨x, y⟩ := by
      simp
    rw [hsub, hrec]
    cases hv : g.get ⟨x + 1, y⟩ <;> simp [hv, List.filterMap_cons]

theorem linIter_north {T : Type} (g : Grid T) (x : Nat) :
    ∀ y : Nat, x < g.width → y < g.height →
      linIterList g Direction.North (some ⟨x, y⟩) =
        ((List.range (y + 1)).map (fun i => (⟨x, y - i⟩ : Point))).filterMap (fun q => g.get q) := by
  intro y
  induction y with
  | zero =>
    intro hx hy
    have hin : g.check_inbounds ⟨x, 0⟩ = true := by
      rw [check_inbounds_iff]
      exact ⟨hx, hy⟩
    rw [linIterList_some, if_pos hin, offset_by_north]
    simp only [if_pos rfl, linIterList_none]
    cases hv : g.get ⟨x, 0⟩ <;> simp [hv, List.filterMap_cons, linIterList_none]
  | succ y ih =>
    intro hx hy
    have hin : g.check_inbounds ⟨x, y + 1⟩ = true := by
      rw [check_inbounds_iff]
      exact ⟨hx, hy⟩
    rw [linIterList_some, if_pos hin, offset_by_north]
    have hne : y + 1 ≠ 0 := by omega
    rw [if_neg (by simpa using hne)]
    have hrange : (List.range (y + 1 + 1)).map (fun i => (⟨x, y + 1 - i⟩ : Point)) =
        (⟨x, y + 1⟩ : Point) :: (List.range (y + 1)).map (fun i => (⟨x, y - i⟩ : Point)) := by
      rw [List.range_succ_eq_map, List.map_cons, List.map_map]
      congr 1
      apply List.map_congr_left
      intro i _
      simp [Function.comp, Point.mk.injEq] <;> omega
    rw [hrange]
    have hrec := ih (by omega) (by omega)
    have hsub : (⟨x, y + 1 - 1⟩ : Point) = ⟨x, y⟩ := by
      simp
    rw [hsub, hrec]
    cases hv : g.get ⟨x, y + 1⟩ <;> simp [hv, List.filterMap_cons]

/-- C6: the linear ray iterator yields exactly the values of the populated
cells along the in-bounds prefix of the ray (candidates visited only while
inside the tracked rectangle, terminating the instant a step would leave
it, not when a populated run ends), and a row or column iterator whose
start index is out of range yields the empty sequence. -/
theorem linear_ray_correct :
    (∀ (T : Type) (g : Grid T) (start : Point) (dir : Direction),
      g.linear_iter start dir = (specRay g start dir).filterMap (fun q => g.get q)) ∧
    (∀ (T : Type) (g : Grid T) (row : Nat), g.height ≤ row → g.row_iter row = []) ∧
    (∀ (T : Type) (g : Grid T) (col : Nat), g.width ≤ col → g.col_iter col = []) := by
  refine ⟨?_, ?_, ?_⟩
  · intro T g start dir
    unfold Grid.linear_iter specRay
    by_cases hin : g.check_inbounds start = true
    · rw [if_pos hin]
      rw [check_inbounds_iff] at hin
      obtain ⟨hx, hy⟩ := hin
      obtain ⟨sx, sy⟩ := start
      cases dir
      · exact linIter_north g sx sy hx hy
      · exact linIter_south g sx (g.height - sy) sy rfl hx hy
      · exact linIter_east g sy (g.width - sx) sx rfl hx hy
      · exact linIter_west g sy sx hx hy
    · have hin' : g.check_inbounds start = false := by simpa using hin
      rw [linIterList_some]
      simp [hin']
  · intro T g row hrow
    unfold Grid.row_iter
    rw [linIterList_some]
    have hout : g.check_inbounds ⟨0, row⟩ = false := by
      by_cases hb : g.check_inbounds ⟨0, row⟩ = true
      · rw [check_inbounds_iff] at hb
        simp only [] at hb
        omega
      · simpa using hb
    simp [hout]
  · intro T g col hcol
    unfold Grid.col_iter
    rw [linIterList_some]
    have hout : g.check_inbounds ⟨col, 0⟩ = false := by
      by_cases hb : g.check_inbounds ⟨col, 0⟩ = true
      · rw [check_inbounds_iff] at hb
        simp only [] at hb
        omega
      · simpa using hb
    simp [hout]

theorem linear_ray_correct_witness :
    (Grid.mk [(⟨0, 0⟩, 3)] 1 1 : Grid Nat).row_iter 5 = [] :=
  linear_ray_correct.2.1 Nat (Grid.mk [(⟨0, 0⟩, 3)] 1 1) 5 (by decide)

theorem mapGet_rowInserts {T : Type} (y : Nat) :
    ∀ (row : List T) (x : Nat) (m : List (Point × T)) (qx qy : Nat),
      mapGet ⟨qx, qy⟩ (rowInserts y x row m) =
        if qy = y ∧ x ≤ qx ∧ qx < x + row.length then row[qx - x]?
        else mapGet ⟨qx, qy⟩ m := by
  intro row
  induction row with
  | nil =>
    intro x m qx qy
    rw [rowInserts, if_neg]
    simp only [List.length_nil]
    omega
  | cons v rest ih =>
    intro x m qx qy
    rw [rowInserts, ih (x + 1), mapGet_mapInsert]
    simp only [List.length_cons]
    by_cases hq : (⟨qx, qy⟩ : Point) = (⟨x, y⟩ : Point)
    · obtain ⟨hqx, hqy⟩ : qx = x ∧ qy = y := by simpa [Point.mk.injEq] using hq
      subst hqx
      subst hqy
      split_ifs <;>
        first
        | rfl
        | (exfalso; omega)
        | (simp [Nat.sub_self])
        | simp_all
    · have hne : ¬(qx = x ∧ qy = y) := by
        intro hc
        exact hq (by simp [Point.mk.injEq, hc.1, hc.2])
      split_ifs <;>
        first
        | rfl
        | (exfalso; omega)
        | (exact absurd (by assumption) hq)
        | (rw [show qx - x = (qx - (x + 1)) + 1 by omega]; simp)

theorem mapGet_buildRows {T : Type} :
    ∀ (rows : List (List T)) (y : Nat) (m : List (Point × T)) (qx qy : Nat),
      mapGet ⟨qx, qy⟩ (buildRows y rows m) =
        if y ≤ qy ∧ qy < y + rows.length ∧ qx < (rows.getD (qy - y) []).length
        then (rows.getD (qy - y) [])[qx]?
        else mapGet ⟨qx, qy⟩ m := by
  intro rows
  induction rows with
  | nil =>
    intro y m qx qy
    rw [buildRows, if_neg]
    simp only [List.length_nil]
    omega
  | cons row rest ih =>
    intro y m qx qy
    rw [buildRows, ih (y + 1), mapGet_rowInserts]
    rcases Nat.lt_trichotomy qy y with hlt | heq | hgt
    · simp only [List.length_cons]
      split_ifs <;> first | rfl | (exfalso; omega)
    · have hs : qy - y = 0 := by omega
      rw [hs]
      simp only [List.getD_cons_zero, List.length_cons]
      split_ifs <;> first | rfl | (exfalso; omega) | (simp [Nat.sub_zero])
    · have hs : qy - y = (qy - (y + 1)) + 1 := by omega
      rw [hs]
      simp only [List.getD_cons_succ, List.length_cons]
      split_ifs <;> first | rfl | (exfalso; omega)

theorem get_from_2d_vec {T : Type} (input : List (List T)) (qx qy : Nat) :
    (Grid.from_2d_vec input).get ⟨qx, qy⟩ =
      if qy < input.length ∧ qx < (input.getD qy []).length
      then (input.getD qy [])[qx]?
      else none := by
  show mapGet (⟨qx, qy⟩ : Point) (buildRows 0 input []) = _
  rw [mapGet_buildRows]
  simp only [Nat.sub_zero, Nat.zero_add, Nat.zero_le, true_and]
  by_cases hc : qy < input.length ∧ qx < (input.getD qy []).length
  · rw [if_pos hc, if_pos hc]
  · rw [if_neg hc, if_neg hc]
    rfl

theorem widthFold_rect {T : Type} :
    ∀ (input : List (List T)) (C : Nat),
      (∀ row ∈ input, row.length = C) → input ≠ [] → widthFold input = C := by
  intro input
  induction input with
  | nil => intro C _ hne; exact absurd rfl hne
  | cons row rest ih =>
    intro C h _
    rw [widthFold_cons]
    have hrow : row.length = C := h row (by simp)
    cases rest with
    | nil => simp [widthFold, hrow]
    | cons r2 t2 =>
      rw [ih C (fun r hr => h r (List.mem_cons_of_mem row hr)) (by simp)]
      omega

theorem range_filterMap_getElem {α : Type} (l : List α) :
    (List.range l.length).filterMap (fun i => l[i]?) = l := by
  induction l with
  | nil => simp
  | cons a t ih =>
    rw [List.length_cons, List.range_succ_eq_map, List.filterMap_cons]
    simp only [List.getElem?_cons_zero, List.filterMap_map]
    rw [show ((fun i => (a :: t)[i]?) ∘ Nat.succ) = (fun i => t[i]?) by
      funext i
      exact List.getElem?_cons_succ]
    rw [ih]

theorem range_flatMap_getD {α : Type} (l : List (List α)) :
    (List.range l.length).flatMap (fun y => l.getD y []) = l.flatten := by
  induction l with
  | nil => simp
  | cons a t ih =>
    rw [List.length_cons, List.range_succ_eq_map, List.flatMap_cons, List.flatMap_map]
    simp only [List.getD_cons_zero, Nat.succ_eq_add_one, List.getD_cons_succ, Function.comp]
    rw [ih, List.flatten_cons]

theorem flatten_length_rect {α : Type} :
    ∀ (l : List (List α)) (C : Nat), (∀ r ∈ l, r.length = C) →
      l.flatten.length = l.length * C := by
  intro l
  induction l with
  | nil => intro C _; simp
  | cons a t ih =>
    intro C h
    rw [List.flatten_cons, List.length_append, ih C (fun r hr => h r (List.mem_cons_of_mem a hr)),
      h a (by simp), List.length_cons]
    ring

theorem gridIterFrom_unfold {T : Type} (g : Grid T) (p : Point) :
    gridIterFrom g p =
      if p.y < g.height then
        match g.get p with
        | some v => v :: gridIterFrom g (scanNext g p)
        | none => gridIterFrom g (scanNext g p)
      else [] := by
  rw [gridIterFrom]
  by_cases h : p.y < g.height <;> simp [h]

theorem gridIterFrom_empty {T : Type} (g : Grid T) (hget : ∀ q : Point, g.get q = none) :
    ∀ p : Point, gridIterFrom g p = [] := by
  intro p
  induction p using gridIterFrom.induct g with
  | case1 p h v hv ih =>
    rw [hget] at hv
    exact absurd hv (by simp)
  | case2 p h hv ih =>
    rw [gridIterFrom_unfold, if_pos h, hv]
    exact ih
  | case3 p h =>
    rw [gridIterFrom_unfold, if_neg h]

theorem gridIterFrom_row {T : Type} (g : Grid T) (y : Nat) :
    ∀ (k x : Nat), g.width - x = k → x < g.width → y < g.height →
      gridIterFrom g ⟨x, y⟩ =
        ((List.range k).map (fun i => (⟨x + i, y⟩ : Point))).filterMap (fun q => g.get q) ++
          gridIterFrom g ⟨0, y + 1⟩ := by
  intro k
  induction k with
  | zero => intro x hk hx hy; omega
  | succ k ih =>
    intro x hk hx hy
    rw [gridIterFrom_unfold, if_pos hy]
    have hrange : (List.range (k + 1)).map (fun i => (⟨x + i, y⟩ : Point)) =
        (⟨x, y⟩ : Point) :: (List.range k).map (fun i => (⟨x + 1 + i, y⟩ : Point)) := by
      rw [List.range_succ_eq_map, List.map_cons, List.map_map]
      congr 1
      apply List.map_congr_left
      intro i _
      simp [Function.comp, Point.mk.injEq] <;> omega
    rw [hrange]
    by_cases hx1 : x + 1 < g.width
    · have hsn : scanNext g ⟨x, y⟩ = ⟨x + 1, y⟩ := by simp [scanNext, hx1]
      rw [hsn, ih (x + 1) (by omega) hx1 hy]
      cases hv : g.get ⟨x, y⟩ <;> simp [hv, List.filterMap_cons]
    · have hk0 : k = 0 := by omega
      subst hk0
      have hsn : scanNext g ⟨x, y⟩ = ⟨0, y + 1⟩ := by simp [scanNext, hx1]
      rw [hsn]
      cases hv : g.get ⟨x, y⟩ <;> simp [hv, List.filterMap_cons]

theorem gridIterFrom_all {T : Type} (g : Grid T) (hw : 0 < g.width) :
    ∀ (k y : Nat), g.height - y = k →
      gridIterFrom g ⟨0, y⟩ =
        (List.range' y k).flatMap
          (fun row => ((List.range g.width).map (fun i => (⟨i, row⟩ : Point))).filterMap
            (fun q => g.get q)) := by
  intro k
  induction k with
  | zero =>
    intro y hk
    rw [gridIterFrom_unfold, if_neg (by simp only []; omega)]
    simp [List.range']
  | succ k ih =>
    intro y hk
    have hy : y < g.height := by omega
    rw [gridIterFrom_row g y g.width 0 (by omega) hw hy, ih (y + 1) (by omega),
      List.range'_succ y k 1, List.flatMap_cons]
    congr 2
    apply List.map_congr_left
    intro i _
    simp

/-- C5: on an R × C rectangular input (R ≥ 1 rows, each of length C),
`from_2d_vec` builds a grid with `width = C` and `height = R`, and the full
scan yields exactly the R·C cell values in row-major order (the
concatenation of the input rows, x fastest). -/
theorem from_2d_vec_correct {T : Type} (input : List (List T)) (C : Nat)
    (hrect : ∀ row ∈ input, row.length = C) (hR : 0 < input.length) :
    (Grid.from_2d_vec input).width = C ∧
    (Grid.from_2d_vec input).height = input.length ∧
    (Grid.from_2d_vec input).iterList = input.flatten ∧
    (Grid.from_2d_vec input).iterList.length = input.length * C := by
  have hne : input ≠ [] := by
    intro h
    rw [h] at hR
    simp at hR
  have hwidth : (Grid.from_2d_vec input).width = C := widthFold_rect input C hrect hne
  have hgetD : ∀ qy, qy < input.length → (input.getD qy []).length = C := by
    intro qy hqy
    rw [List.getD_eq_getElem?_getD, List.getElem?_eq_getElem hqy]
    exact hrect _ (List.getElem_mem hqy)
  have hflat : (Grid.from_2d_vec input).iterList = input.flatten := by
    by_cases hC : C = 0
    · subst hC
      have hget0 : ∀ q : Point, (Grid.from_2d_vec input).get q = none := by
        intro q
        obtain ⟨qx, qy⟩ := q
        rw [get_from_2d_vec, if_neg]
        intro hc
        have := hgetD qy hc.1
        omega
      have hiter : (Grid.from_2d_vec input).iterList = [] :=
        gridIterFrom_empty _ hget0 ⟨0, 0⟩
      rw [hiter]
      have hlen0 : input.flatten.length = 0 := by
        rw [flatten_length_rect input 0 hrect]
        ring
      exact (List.length_eq_zero.mp hlen0).symm
    · have hw : 0 < (Grid.from_2d_vec input).width := by omega
      show gridIterFrom (Grid.from_2d_vec input) ⟨0, 0⟩ = input.flatten
      rw [gridIterFrom_all _ hw input.length 0 rfl,
        show List.range' 0 input.length = List.range input.length from
          (List.range_eq_range' _).symm,
        ← range_flatMap_getD input]
      rw [List.flatMap_def, List.flatMap_def]
      congr 1
      apply List.map_congr_left
      intro y hy
      have hy' : y < input.length := List.mem_range.mp hy
      have hrowlen : (input.getD y []).length = C := hgetD y hy'
      rw [hwidth, List.filterMap_map]
      rw [List.filterMap_congr (g := fun i => (input.getD y [])[i]?) ?_]
      · rw [← hrowlen, range_filterMap_getElem]
      · intro i hi
        have hi' : i < C := List.mem_range.mp hi
        simp only [Function.comp]
        rw [get_from_2d_vec, if_pos ⟨hy', by omega⟩]
  refine ⟨hwidth, rfl, hflat, ?_⟩
  rw [hflat]
  exact flatten_length_rect input C hrect

theorem from_2d_vec_correct_witness :
    (Grid.from_2d_vec ([[1, 2], [3, 4]] : List (List Nat))).width = 2 ∧
    (Grid.from_2d_vec ([[1, 2], [3, 4]] : List (List Nat))).iterList = [1, 2, 3, 4] :=
  ⟨(from_2d_vec_correct [[1, 2], [3, 4]] 2 (by decide) (by decide)).1,
    by
      rw [(from_2d_vec_correct [[1, 2], [3, 4]] 2 (by decide) (by decide)).2.2.1]
      decide⟩

theorem istep_full_eq {T : Type} (g : Grid T) (next cur : Point) :
    istep g (IterSt.full next cur) =
      if h : next.y < g.height then
        match g.get next with
        | some v => some (v, IterSt.full (scanNext g next) next)
        | none => istep g (IterSt.full (scanNext g next) next)
      else none := by
  rw [istep.eq_def]

theorem istep_linear_none_eq {T : Type} (g : Grid T) (dir : Direction) (cur : Point) :
    istep g (IterSt.linear none dir cur) = none := by
  rw [istep.eq_def]

theorem istep_linear_some_eq {T : Type} (g : Grid T) (p : Point) (dir : Direction) (cur : Point) :
    istep g (IterSt.linear (some p) dir cur) =
      if h : g.check_inbounds p then
        match g.get p with
        | some v => some (v, IterSt.linear (p.offset_by dir.vector) dir p)
        | none => istep g (IterSt.linear (p.offset_by dir.vector) dir p)
      else none := by
  rw [istep.eq_def]

theorem istep_nbrs_eq {T : Type} (g : Grid T) (i : Nat) (l : List Point) :
    istep g (IterSt.nbrs i l) =
      if h : i < l.length then
        match g.get (l.get ⟨i, h⟩) with
        | some v => some (v, IterSt.nbrs (i + 1) l)
        | none => istep g (IterSt.nbrs (i + 1) l)
      else none := by
  rw [istep.eq_def]

theorem istep_sound {T : Type} (g : Grid T) :
    ∀ (st : IterSt T) (v : T) (st' : IterSt T),
      istep g st = some (v, st') → g.get st'.current_index = some v := by
  intro st
  induction st using istep.induct g with
  | case1 next cur h v hv =>
    intro w st' hstep
    rw [istep_full_eq, dif_pos h] at hstep
    simp only [hv, Option.some.injEq, Prod.mk.injEq] at hstep
    obtain ⟨rfl, rfl⟩ := hstep
    simp [IterSt.current_index, hv]
  | case2 next cur h hv ih =>
    intro w st' hstep
    rw [istep_full_eq, dif_pos h] at hstep
    simp only [hv] at hstep
    exact ih w st' hstep
  | case3 next cur h =>
    intro w st' hstep
    rw [istep_full_eq, dif_neg h] at hstep
    exact Option.noConfusion hstep
  | case4 dir cur =>
    intro w st' hstep
    rw [istep_linear_none_eq] at hstep
    exact Option.noConfusion hstep
  | case5 p dir cur h v hv =>
    intro w st' hstep
    rw [istep_linear_some_eq, dif_pos h] at hstep
    simp only [hv, Option.some.injEq, Prod.mk.injEq] at hstep
    obtain ⟨rfl, rfl⟩ := hstep
    simp [IterSt.current_index, hv]
  | case6 p dir cur h hv ih =>
    intro w st' hstep
    rw [istep_linear_some_eq, dif_pos h] at hstep
    simp only [hv] at hstep
    exact ih w st' hstep
  | case7 p dir cur h =>
    intro w st' hstep
    rw [istep_linear_some_eq, dif_neg h] at hstep
    exact Option.noConfusion hstep
  | case8 i l h v hv =>
    intro w st' hstep
    rw [istep_nbrs_eq, dif_pos h] at hstep
    simp only [hv, Option.some.injEq, Prod.mk.injEq] at hstep
    obtain ⟨rfl, rfl⟩ := hstep
    have hcur : (IterSt.nbrs (i + 1) l : IterSt T).current_index = l.get ⟨i, h⟩ := by
      simp only [IterSt.current_index, Nat.add_sub_cancel]
      rw [List.getD_eq_getElem?_getD, List.getElem?_eq_getElem h]
      rfl
    rw [hcur, hv]
  | case9 i l h hv ih =>
    intro w st' hstep
    rw [istep_nbrs_eq, dif_pos h] at hstep
    simp only [hv] at hstep
    exact ih w st' hstep
  | case10 i l h =>
    intro w st' hstep
    rw [istep_nbrs_eq, dif_neg h] at hstep
    exact Option.noConfusion hstep

/-- C7: every pair `(p, v)` yielded by the indexed composition of any
traversal strategy (full scan, linear ray, neighbor set) satisfies
`grid.get p = some v`: the `Point` component is exactly the point that
produced the value, even across runs of skipped empty candidates. -/
theorem indexed_iter_sound {T : Type} (g : Grid T) (fuel : Nat) (st : IterSt T)
    (p : Point) (v : T) (h : (p, v) ∈ indexedList g fuel st) : g.get p = some v := by
  induction fuel generalizing st with
  | zero => simp [indexedList] at h
  | succ fuel ih =>
    rw [indexedList] at h
    cases hstep : istep g st with
    | none =>
      rw [hstep] at h
      simp at h
    | some out =>
      obtain ⟨w, st'⟩ := out
      rw [hstep] at h
      rcases List.mem_cons.mp h with heq | hmem
      · obtain ⟨hp, hv⟩ := Prod.mk.injEq .. ▸ heq
        rw [hp, hv]
        exact istep_sound g st w st' hstep
      · exact ih st' hmem

theorem indexed_iter_sound_witness :
    (Grid.mk [(⟨0, 0⟩, 7)] 1 1 : Grid Nat).get ⟨0, 0⟩ = some 7 :=
  indexed_iter_sound (Grid.mk [(⟨0, 0⟩, 7)] 1 1) 1 (IterSt.full ⟨0, 0⟩ ⟨0, 0⟩) ⟨0, 0⟩ 7
    (by
      have h1 : istep (Grid.mk [(⟨0, 0⟩, 7)] 1 1 : Grid Nat) (IterSt.full ⟨0, 0⟩ ⟨0, 0⟩) =
          some (7, IterSt.full ⟨0, 1⟩ ⟨0, 0⟩) := by
        rw [istep_full_eq, dif_pos (by decide)]
        rw [show (Grid.mk [(⟨0, 0⟩, 7)] 1 1 : Grid Nat).get ⟨0, 0⟩ = some 7 from rfl]
        rw [show scanNext (Grid.mk [(⟨0, 0⟩, 7)] 1 1 : Grid Nat) ⟨0, 0⟩ = ⟨0, 1⟩ from by decide]
      rw [indexedList, h1]
      simp [IterSt.current_index])

theorem offset_by_raw_north (p : Point) :
    p.offset_by ⟨0, -1⟩ = if p.y = 0 then none else some ⟨p.x, p.y - 1⟩ :=
  offset_by_north p

theorem offset_by_raw_south (p : Point) :
    p.offset_by ⟨0, 1⟩ = some ⟨p.x, p.y + 1⟩ :=
  offset_by_south p

theorem offset_by_raw_east (p : Point) :
    p.offset_by ⟨1, 0⟩ = some ⟨p.x + 1, p.y⟩ :=
  offset_by_east p

theorem offset_by_raw_west (p : Point) :
    p.offset_by ⟨-1, 0⟩ = if p.x = 0 then none else some ⟨p.x - 1, p.y⟩ :=
  offset_by_west p

theorem neighborsValues_length {T : Type} (g : Grid T) (hfull : fullyPopulated g) :
    ∀ l : List Point,
      (neighborsValues g l).length = (l.filter (fun q => g.check_inbounds q)).length := by
  intro l
  induction l with
  | nil => rfl
  | cons q rest ih =>
    have hq := hfull q
    cases hv : g.get q with
    | some v =>
      rw [hv] at hq
      rw [neighborsValues, hv, List.filter_cons, if_pos (by rw [← hq]; rfl)]
      simp only [List.length_cons, ih]
    | none =>
      rw [hv] at hq
      rw [neighborsValues, hv, List.filter_cons, if_neg (by rw [← hq]; simp)]
      exact ih

theorem inbounds_true {T : Type} (g : Grid T) (p : Point) (hx : p.x < g.width)
    (hy : p.y < g.height) : g.check_inbounds p = true := by
  rw [check_inbounds_iff]
  exact ⟨hx, hy⟩

theorem inbounds_false {T : Type} (g : Grid T) (p : Point)
    (h : g.width ≤ p.x ∨ g.height ≤ p.y) : g.check_inbounds p = false := by
  by_cases hb : g.check_inbounds p = true
  · rw [check_inbounds_iff] at hb
    exfalso
    omega
  · simpa using hb

theorem neighborsValues_length_le {T : Type} (g : Grid T) :
    ∀ l : List Point, (neighborsValues g l).length ≤ l.length := by
  intro l
  induction l with
  | nil => simp [neighborsValues]
  | cons q rest ih =>
    rw [neighborsValues]
    cases g.get q <;> simp only [List.length_cons] <;> omega

/-- C9 counterexample: on the sparse 2 × 2 grid holding only the cell
(1,1), cardinal neighbor iteration of the corner (0,0) yields 0 values,
not the 2 in-bounds cardinal neighbors the claim promises for every grid. -/
theorem neighbor_counts_counterexample :
    ((Grid.new Nat).insert ⟨1, 1⟩ 5).width = 2 ∧
    ((Grid.new Nat).insert ⟨1, 1⟩ 5).height = 2 ∧
    (((Grid.new Nat).insert ⟨1, 1⟩ 5).neighbors_iter ⟨0, 0⟩).length = 0 := by
  decide

/-- C9 (amended): on a fully populated grid (occupancy coincides with the
bounds rectangle), cardinal neighbor iteration of a corner cell of a grid
of width and height at least 2 yields exactly 2 values, and of an interior
cell exactly 4; on every grid the 8-way (ortho) variant yields at most 8
values, candidates with a negative coordinate being omitted by
construction. -/
theorem neighbor_counts :
    (∀ (T : Type) (g : Grid T), fullyPopulated g → 2 ≤ g.width → 2 ≤ g.height →
      ∀ c : Point,
        (c = ⟨0, 0⟩ ∨ c = ⟨g.width - 1, 0⟩ ∨ c = ⟨0, g.height - 1⟩ ∨
          c = ⟨g.width - 1, g.height - 1⟩) →
        (g.neighbors_iter c).length = 2) ∧
    (∀ (T : Type) (g : Grid T), fullyPopulated g →
      ∀ p : Point, 1 ≤ p.x → p.x + 1 < g.width → 1 ≤ p.y → p.y + 1 < g.height →
        (g.neighbors_iter p).length = 4) ∧
    (∀ (T : Type) (g : Grid T) (p : Point), (g.ortho_iter p).length ≤ 8) := by
  refine ⟨?_, ?_, ?_⟩
  · intro T g hfull hw hh c hc
    unfold Grid.neighbors_iter
    rw [neighborsValues_length g hfull]
    rcases hc with rfl | rfl | rfl | rfl
    · have h1 : g.check_inbounds ⟨1, 0⟩ = true := inbounds_true g ⟨1, 0⟩ (by simp only []; omega) (by simp only []; omega)
      have h2 : g.check_inbounds ⟨0, 1⟩ = true := inbounds_true g ⟨0, 1⟩ (by simp only []; omega) (by simp only []; omega)
      simp [neighborVecs, offset_by_raw_north, offset_by_raw_south, offset_by_raw_east,
        offset_by_raw_west, List.filterMap_cons, List.filter_cons, h1, h2]
    · have hne : g.width - 1 ≠ 0 := by omega
      have h1 : g.check_inbounds ⟨g.width - 1 - 1, 0⟩ = true :=
        inbounds_true g ⟨g.width - 1 - 1, 0⟩ (by simp only []; omega) (by simp only []; omega)
      have h2 : g.check_inbounds ⟨g.width - 1 + 1, 0⟩ = false :=
        inbounds_false g ⟨g.width - 1 + 1, 0⟩ (Or.inl (by simp only []; omega))
      have h3 : g.check_inbounds ⟨g.width - 1, 1⟩ = true :=
        inbounds_true g ⟨g.width - 1, 1⟩ (by simp only []; omega) (by simp only []; omega)
      simp [neighborVecs, offset_by_raw_north, offset_by_raw_south, offset_by_raw_east,
        offset_by_raw_west, List.filterMap_cons, List.filter_cons, hne, h1, h2, h3]
    · have hne : g.height - 1 ≠ 0 := by omega
      have h1 : g.check_inbounds ⟨0, g.height - 1 - 1⟩ = true :=
        inbounds_true g ⟨0, g.height - 1 - 1⟩ (by simp only []; omega) (by simp only []; omega)
      have h2 : g.check_inbounds ⟨1, g.height - 1⟩ = true :=
        inbounds_true g ⟨1, g.height - 1⟩ (by simp only []; omega) (by simp only []; omega)
      have h3 : g.check_inbounds ⟨0, g.height - 1 + 1⟩ = false :=
        inbounds_false g ⟨0, g.height - 1 + 1⟩ (Or.inr (by simp only []; omega))
      simp [neighborVecs, offset_by_raw_north, offset_by_raw_south, offset_by_raw_east,
        offset_by_raw_west, List.filterMap_cons, List.filter_cons, hne, h1, h2, h3]
    · have hnex : g.width - 1 ≠ 0 := by omega
      have hney : g.height - 1 ≠ 0 := by omega
      have h1 : g.check_inbounds ⟨g.width - 1, g.height - 1 - 1⟩ = true :=
        inbounds_true g ⟨g.width - 1, g.height - 1 - 1⟩ (by simp only []; omega) (by simp only []; omega)
      have h2 : g.check_inbounds ⟨g.width - 1 - 1, g.height - 1⟩ = true :=
        inbounds_true g ⟨g.width - 1 - 1, g.height - 1⟩ (by simp only []; omega) (by simp only []; omega)
      have h3 : g.check_inbounds ⟨g.width - 1 + 1, g.height - 1⟩ = false :=
        inbounds_false g ⟨g.width - 1 + 1, g.height - 1⟩ (Or.inl (by simp only []; omega))
      have h4 : g.check_inbounds ⟨g.width - 1, g.height - 1 + 1⟩ = false :=
        inbounds_false g ⟨g.width - 1, g.height - 1 + 1⟩ (Or.inr (by simp only []; omega))
      simp [neighborVecs, offset_by_raw_north, offset_by_raw_south, offset_by_raw_east,
        offset_by_raw_west, List.filterMap_cons, List.filter_cons, hnex, hney, h1, h2, h3, h4]
  · intro T g hfull p hx1 hx2 hy1 hy2
    unfold Grid.neighbors_iter
    rw [neighborsValues_length g hfull]
    have hnex : p.x ≠ 0 := by omega
    have hney : p.y ≠ 0 := by omega
    have h1 : g.check_inbounds ⟨p.x, p.y - 1⟩ = true :=
      inbounds_true g ⟨p.x, p.y - 1⟩ (by simp only []; omega) (by simp only []; omega)
    have h2 : g.check_inbounds ⟨p.x - 1, p.y⟩ = true :=
      inbounds_true g ⟨p.x - 1, p.y⟩ (by simp only []; omega) (by simp only []; omega)
    have h3 : g.check_inbounds ⟨p.x + 1, p.y⟩ = true :=
      inbounds_true g ⟨p.x + 1, p.y⟩ (by simp only []; omega) (by simp only []; omega)
    have h4 : g.check_inbounds ⟨p.x, p.y + 1⟩ = true :=
      inbounds_true g ⟨p.x, p.y + 1⟩ (by simp only []; omega) (by simp only []; omega)
    simp [neighborVecs, offset_by_raw_north, offset_by_raw_south, offset_by_raw_east,
      offset_by_raw_west, List.filterMap_cons, List.filter_cons, hnex, hney, h1, h2, h3, h4]
  · intro T g p
    unfold Grid.ortho_iter
    calc (neighborsValues g (orthoVecs.filterMap (fun v => p.offset_by v))).length
        ≤ (orthoVecs.filterMap (fun v => p.offset_by v)).length :=
          neighborsValues_length_le g _
      _ ≤ orthoVecs.length := List.length_filterMap_le _ _
      _ = 8 := rfl

theorem g2x2_fullyPopulated :
    fullyPopulated
      (Grid.mk [(⟨0, 0⟩, 1), (⟨1, 0⟩, 2), (⟨0, 1⟩, 3), (⟨1, 1⟩, 4)] 2 2 : Grid Nat) := by
  intro p
  obtain ⟨px, py⟩ := p
  by_cases hx : px < 2
  · by_cases hy : py < 2
    · interval_cases px <;> interval_cases py <;> rfl
    · have hg : (Grid.mk [(⟨0, 0⟩, 1), (⟨1, 0⟩, 2), (⟨0, 1⟩, 3), (⟨1, 1⟩, 4)] 2 2 :
          Grid Nat).get ⟨px, py⟩ = none := by
        simp [Grid.get, mapGet, Point.mk.injEq, show py ≠ 0 from by omega,
          show py ≠ 1 from by omega]
      rw [hg, inbounds_false _ _ (Or.inr (by simp only []; omega))]
      rfl
  · have hg : (Grid.mk [(⟨0, 0⟩, 1), (⟨1, 0⟩, 2), (⟨0, 1⟩, 3), (⟨1, 1⟩, 4)] 2 2 :
        Grid Nat).get ⟨px, py⟩ = none := by
      simp [Grid.get, mapGet, Point.mk.injEq, show px ≠ 0 from by omega,
        show px ≠ 1 from by omega]
    rw [hg, inbounds_false _ _ (Or.inl (by simp only []; omega))]
    rfl

theorem neighbor_counts_witness :
    ((Grid.mk [(⟨0, 0⟩, 1), (⟨1, 0⟩, 2), (⟨0, 1⟩, 3), (⟨1, 1⟩, 4)] 2 2 :
      Grid Nat).neighbors_iter ⟨0, 0⟩).length = 2 :=
  neighbor_counts.1 Nat _ g2x2_fullyPopulated (by decide) (by decide) ⟨0, 0⟩ (Or.inl rfl)
